import Mathlib

/-!
Shallow embedding of ReverseRsaEnc.go (package rsa, repository blewater/rsa).

Conventions of the embedding:
* The Go operators `%` and `/` on `int64` truncate toward zero; they are
  modelled by `Int.tmod` and `Int.tdiv` (no use of them in the repository
  overflows `int64` on the inputs reasoned about here).
* The `math/big` methods `Mod` and `Div` implement Euclidean division
  (remainder in `[0, |m|)`), which is exactly `%` and `/` on Lean `Int`
  (`Int.emod` / `Int.ediv`).
* Integer division by zero panics in Go, as do `big.Int.Mod` / `big.Int.Div`
  with a zero divisor.  A function that can panic returns `Option _`, with
  `none` standing for the panic.
* The Go operator `&` on `int64` is bitwise AND on twos-complement values,
  i.e. `Int.land`.
* The unbounded `for` loops of the rho factorizer are modelled with an
  explicit `fuel` parameter (`none` once the fuel runs out); loops with a
  decreasing measure are modelled by well-founded recursion.
* Products of `int64` values inside the modular-exponentiation loop wrap on
  overflow; they are passed through `wrap64` (twos-complement wrap-around at
  64 bits).
-/

namespace rsa

/-- Twos-complement wrap-around of a mathematical integer into
`[-2^63, 2^63)`, the behaviour of Go `int64` multiplication on overflow. -/
def wrap64 (z : Int) : Int := (z + 2 ^ 63) % 2 ^ 64 - 2 ^ 63

/-- Function `EuclideanMod` (ReverseRsaEnc.go lines 37 to 47).  The body
computes `res := d & m` — bitwise AND, not a remainder — and then
`if res < -1 && m > 0 { return res + m }; return res`. -/
def EuclideanMod (d m : Int) : Int :=
  if Int.land d m < -1 ∧ m > 0 then Int.land d m + m else Int.land d m

/-- Function `GetMod` (lines 51 to 57): `big.Int.Mod`, the Euclidean
remainder; panics (`none`) when the modulus is zero. -/
def GetMod (n1 n2 : Int) : Option Int :=
  if n2 = 0 then none else some (n1 % n2)

/-- Bound for the truncated remainder: `|a.tmod b| < |b|` for `b ≠ 0`. -/
theorem natAbs_tmod_lt (a : Int) {b : Int} (hb : b ≠ 0) :
    (a.tmod b).natAbs < b.natAbs := by
  have hneg : ∀ x y : Int, (-x).tmod y = -(x.tmod y) := by
    intro x y
    rw [Int.tmod_def, Int.tmod_def, Int.neg_tdiv]
    ring
  rcases Int.lt_or_lt_of_ne hb with hbneg | hbpos
  · have h2 : a.tmod b = a.tmod (-b) := (Int.tmod_neg a b).symm
    rcases le_or_lt 0 a with ha | ha
    · have h0 : 0 ≤ a.tmod b := Int.tmod_nonneg _ ha
      have h1 : a.tmod (-b) < -b := Int.tmod_lt_of_pos a (by omega)
      omega
    · have h0 : 0 ≤ (-a).tmod b := Int.tmod_nonneg _ (by omega)
      have h3 : (-a).tmod b = -(a.tmod b) := hneg a b
      have h4 : (-a).tmod (-b) < -b := Int.tmod_lt_of_pos (-a) (by omega)
      have h5 : (-a).tmod (-b) = (-a).tmod b := Int.tmod_neg _ _
      omega
  · rcases le_or_lt 0 a with ha | ha
    · have h0 : 0 ≤ a.tmod b := Int.tmod_nonneg _ ha
      have h1 : a.tmod b < b := Int.tmod_lt_of_pos a hbpos
      omega
    · have h0 : 0 ≤ (-a).tmod b := Int.tmod_nonneg _ (by omega)
      have h3 : (-a).tmod b = -(a.tmod b) := hneg a b
      have h4 : (-a).tmod b < b := Int.tmod_lt_of_pos (-a) hbpos
      omega

/-- Bound for the Euclidean remainder: `0 ≤ a % b < |b|` for `b ≠ 0`,
stated on `natAbs`. -/
theorem natAbs_emod_lt (a : Int) {b : Int} (hb : b ≠ 0) :
    (a % b).natAbs < b.natAbs := by
  have h0 : 0 ≤ a % b := Int.emod_nonneg a hb
  rcases Int.lt_or_lt_of_ne hb with hbneg | hbpos
  · have h2 : a % b = a % (-b) := (Int.emod_neg a b).symm
    have h1 : a % (-b) < -b := Int.emod_lt_of_pos a (by omega)
    omega
  · have h1 : a % b < b := Int.emod_lt_of_pos a hbpos
    omega

/-- Loop of `GetGcd` (lines 62 to 80): while `n1 % n2 ≠ 0` shift
`(n1, n2) ← (n2, n1 % n2)`; return `n2`.  Each `GetMod` call panics when its
second argument is zero, which can only happen on entry. -/
def gcdLoop (n1 n2 : Int) : Option Int :=
  if h : n2 = 0 then none
  else if n1 % n2 = 0 then some n2
  else gcdLoop n2 (n1 % n2)
termination_by n2.natAbs
decreasing_by exact natAbs_emod_lt n1 h

/-- Function `GetGcd` (lines 62 to 80), the `big.Int` Euclidean-algorithm
loop over `GetMod`. -/
def GetGcd (n1 n2 : Int) : Option Int := gcdLoop n1 n2

/-- Inner loop of `GetPrimeFactors` (lines 100 to 108):
`for count := 1; count <= cycleSize && factor <= 1; count++` with
`x ← (x*x + 1) mod n; factor ← GetGcd(x - xFixed, n)`.
`remaining` counts the iterations still allowed (`cycleSize - count + 1`). -/
def rhoInner (n x xFixed factor : Int) (remaining : Nat) : Option (Int × Int) :=
  match remaining with
  | 0 => some (x, factor)
  | rem + 1 =>
    if factor ≤ 1 then
      if n = 0 then none
      else
        match GetGcd ((x * x + 1) % n - xFixed) n with
        | none => none
        | some f => rhoInner n ((x * x + 1) % n) xFixed f rem
    else some (x, factor)

/-- Outer loop of `GetPrimeFactors` (lines 99 to 112): while `factor == 1`,
run the inner loop, then `cycleSize *= 2; xFixed ← x`.  The source loop has
no iteration bound; `fuel` bounds the number of outer rounds modelled, with
`none` when it is exhausted. -/
def rhoOuter (n x xFixed factor : Int) (cycleSize fuel : Nat) : Option Int :=
  match fuel with
  | 0 => none
  | fuel + 1 =>
    if factor = 1 then
      match rhoInner n x xFixed factor cycleSize with
      | none => none
      | some (x', factor') => rhoOuter n x' x' factor' (2 * cycleSize) fuel
    else some factor

/-- Function `GetPrimeFactors` (lines 89 to 118): the rho factorizer seeded
at `x = xFixed = 2`, `cycleSize = 2`, `factor = 1`; on exit `p = factor`,
`q = n / p` (`big.Int.Div`, Euclidean; panics when `p = 0`). -/
def GetPrimeFactors (n : Int) (fuel : Nat) : Option (Int × Int) :=
  match rhoOuter n 2 2 1 2 fuel with
  | none => none
  | some factor => if factor = 0 then none else some (factor, n / factor)

/-- Function `GetPhi` (lines 122 to 135): `φ = (p − 1) * (q − 1)`. -/
def GetPhi (p q : Int) : Int := (p - 1) * (q - 1)

/-- Loop of `GetExtEuclideanAlgorithm` (lines 160 to 165): while `r ≠ 0`,
`quotient := oldR / r` (Go truncated division) followed by the simultaneous
updates of `(oldR, r)`, `(prvS, s)` and `(prvT, t)`. -/
def extLoop (oldR r prvS s prvT t : Int) : Int × Int × Int :=
  if h : r = 0 then (oldR, prvS, prvT)
  else
    extLoop r (oldR - oldR.tdiv r * r) s (prvS - oldR.tdiv r * s)
      t (prvT - oldR.tdiv r * t)
termination_by r.natAbs
decreasing_by
  have heq : oldR - oldR.tdiv r * r = oldR.tmod r := by
    rw [Int.tmod_def]; ring
  simpa [heq] using natAbs_tmod_lt oldR h

/-- Function `GetExtEuclideanAlgorithm` (lines 153 to 170): starts from
`s, prvS = 0, 1`, `t, prvT = 1, 0`, `r, oldR = b, a` and returns
`(gcd, x, y) = (oldR, prvS, prvT)` once the loop ends. -/
def GetExtEuclideanAlgorithm (a b : Int) : Int × Int × Int :=
  extLoop a b 1 0 0 1

/-- Function `GetMultInverse` (lines 176 to 184): runs the extended
Euclidean algorithm; when its gcd component is not `1` it returns `0`
together with an error (modelled `Except.error ()`); otherwise it returns
`x % modulusBase` with the truncated Go `%` — which panics (`none`) when
`modulusBase = 0`. -/
def GetMultInverse (n modulusBase : Int) : Option (Except Unit Int) :=
  if (GetExtEuclideanAlgorithm n modulusBase).1 ≠ 1 then some (Except.error ())
  else if modulusBase = 0 then none
  else some (Except.ok ((GetExtEuclideanAlgorithm n modulusBase).2.1.tmod modulusBase))

/-- Loop of `GetEncOrDecMsg` (lines 192 to 198): square-and-multiply over Go
`int64`; products wrap at 64 bits (`wrap64`), `%` is the truncated Go
remainder, and `exp >>= 1` is an arithmetic right shift, i.e. `exp / 2`
(floor division equals Euclidean division for the positive divisor 2). -/
def powLoop (base exp result modulus : Int) : Int :=
  if 0 < exp then
    powLoop ((wrap64 (base * base)).tmod modulus) (exp / 2)
      (if 0 < Int.land exp 1 then (wrap64 (result * base)).tmod modulus else result)
      modulus
  else result
termination_by exp.toNat
decreasing_by omega

/-- Function `GetEncOrDecMsg` (lines 188 to 200): `base %= modulus` (panics
when `modulus = 0`), `result := 1`, then the square-and-multiply loop. -/
def GetEncOrDecMsg (base exp modulus : Int) : Option Int :=
  if modulus = 0 then none
  else some (powLoop (base.tmod modulus) exp 1 modulus)

/-- Function `DecryptCipher` (lines 205 to 219): factor `n`, take `φ`, ask
`GetMultInverse(e, φ)` for `d`; on error the error is only printed and `d`
keeps the zero value of the Go multiple return; finally
`m = GetEncOrDecMsg(cipher, d, n)`. -/
def DecryptCipher (cipher n e : Int) (fuel : Nat) : Option Int :=
  match GetPrimeFactors n fuel with
  | none => none
  | some (p, q) =>
    match GetMultInverse e (GetPhi p q) with
    | none => none
    | some res =>
      GetEncOrDecMsg cipher (match res with | Except.error _ => 0 | Except.ok d => d) n

end rsa

namespace rsa

/-- The gcd is unchanged by subtracting a multiple: helper for the loop
invariants of the two Euclidean algorithms. -/
theorem gcd_sub_mul (x r q : Int) : Int.gcd r (x - q * r) = Int.gcd x r := by
  apply Nat.dvd_antisymm
  · have h1 : (↑(Int.gcd r (x - q * r)) : Int) ∣ r := Int.gcd_dvd_left
    have h2 : (↑(Int.gcd r (x - q * r)) : Int) ∣ x - q * r := Int.gcd_dvd_right
    have h3 : (↑(Int.gcd r (x - q * r)) : Int) ∣ x := by
      have hx := dvd_add h2 (Dvd.dvd.mul_left h1 q)
      simpa using hx
    exact Int.natCast_dvd_natCast.mp (Int.dvd_gcd h3 h1)
  · have h1 : (↑(Int.gcd x r) : Int) ∣ x := Int.gcd_dvd_left
    have h2 : (↑(Int.gcd x r) : Int) ∣ r := Int.gcd_dvd_right
    have h3 : (↑(Int.gcd x r) : Int) ∣ x - q * r := dvd_sub h1 (Dvd.dvd.mul_left h2 q)
    exact Int.natCast_dvd_natCast.mp (Int.dvd_gcd h2 h3)

/-- When `b` divides `a`, the gcd of `a` and `b` is `|b|`. -/
theorem gcd_of_dvd (a b : Int) (hba : b ∣ a) : Int.gcd a b = b.natAbs := by
  apply Nat.dvd_antisymm
  · have h1 : (↑(Int.gcd a b) : Int) ∣ b := Int.gcd_dvd_right
    have h2 : (↑(Int.gcd a b) : Int).natAbs ∣ b.natAbs := Int.natAbs_dvd_natAbs.mpr h1
    simpa using h2
  · have h1 : (↑b.natAbs : Int) ∣ a := Int.natAbs_dvd.mpr hba
    have h2 : (↑b.natAbs : Int) ∣ b := Int.natAbs_dvd.mpr dvd_rfl
    exact Int.natCast_dvd_natCast.mp (Int.dvd_gcd h1 h2)

/-- The `GetGcd` loop with a positive second argument terminates without a
panic and computes the mathematical gcd (fuel-indexed strong induction). -/
theorem gcdLoop_eq_gcd : ∀ (m : Nat) (a b : Int), 0 < b → b.natAbs ≤ m →
    gcdLoop a b = some ((Int.gcd a b : Nat) : Int) := by
  intro m
  induction m with
  | zero =>
    intro a b hb hm
    omega
  | succ m ih =>
    intro a b hb hm
    have hbne : b ≠ 0 := by omega
    rw [gcdLoop]
    rw [dif_neg hbne]
    by_cases hr : a % b = 0
    · rw [if_pos hr]
      have hba : b ∣ a := Int.dvd_of_emod_eq_zero hr
      rw [gcd_of_dvd a b hba, Int.natAbs_of_nonneg (le_of_lt hb)]
    · rw [if_neg hr]
      have hrpos : 0 < a % b := lt_of_le_of_ne (Int.emod_nonneg a hbne) (Ne.symm hr)
      have hmeas : (a % b).natAbs ≤ m := by
        have := natAbs_emod_lt a hbne
        omega
      rw [ih b (a % b) hrpos hmeas]
      have hgcd : Int.gcd b (a % b) = Int.gcd a b := by
        have hd : a % b = a - a / b * b := by
          rw [Int.emod_def]; ring
        rw [hd, gcd_sub_mul a b (a / b)]
      rw [hgcd]

/-- Specification of `GetGcd` for a positive second argument. -/
theorem GetGcd_eq_gcd (a b : Int) (hb : 0 < b) :
    GetGcd a b = some ((Int.gcd a b : Nat) : Int) :=
  gcdLoop_eq_gcd b.natAbs a b hb le_rfl

/-- Invariant of the extended-Euclidean loop: if the two running rows
satisfy the Bezout identities for `(a, b)`, then the returned triple
satisfies it as well, and the first component has the absolute value of the
gcd of the current pair. -/
theorem extLoop_spec (a b : Int) : ∀ (m : Nat) (oldR r prvS s prvT t : Int),
    r.natAbs ≤ m →
    a * prvS + b * prvT = oldR →
    a * s + b * t = r →
    a * (extLoop oldR r prvS s prvT t).2.1 + b * (extLoop oldR r prvS s prvT t).2.2
        = (extLoop oldR r prvS s prvT t).1
      ∧ ((extLoop oldR r prvS s prvT t).1).natAbs = Int.gcd oldR r := by
  intro m
  induction m with
  | zero =>
    intro oldR r prvS s prvT t hm h1 h2
    have hr : r = 0 := by omega
    subst hr
    rw [extLoop]
    simp only [dif_pos rfl]
    exact ⟨h1, (Int.gcd_zero_right oldR).symm⟩
  | succ m ih =>
    intro oldR r prvS s prvT t hm h1 h2
    by_cases hr : r = 0
    · subst hr
      rw [extLoop]
      simp only [dif_pos rfl]
      exact ⟨h1, (Int.gcd_zero_right oldR).symm⟩
    · rw [extLoop]
      rw [dif_neg hr]
      have hmeas : (oldR - oldR.tdiv r * r).natAbs ≤ m := by
        have heq : oldR - oldR.tdiv r * r = oldR.tmod r := by
          rw [Int.tmod_def]; ring
        have := natAbs_tmod_lt oldR hr
        omega
      have h1' : a * s + b * t = r := h2
      have h2' : a * (prvS - oldR.tdiv r * s) + b * (prvT - oldR.tdiv r * t)
          = oldR - oldR.tdiv r * r := by
        have : a * (prvS - oldR.tdiv r * s) + b * (prvT - oldR.tdiv r * t)
            = (a * prvS + b * prvT) - oldR.tdiv r * (a * s + b * t) := by ring
        rw [this, h1, h2]
      have hrec := ih r (oldR - oldR.tdiv r * r) s (prvS - oldR.tdiv r * s)
        t (prvT - oldR.tdiv r * t) hmeas h1' h2'
      refine ⟨hrec.1, ?_⟩
      rw [hrec.2, gcd_sub_mul oldR r (oldR.tdiv r)]

/-- Bezout identity plus gcd absolute value for `GetExtEuclideanAlgorithm`. -/
theorem ext_bezout_gcd (a b : Int) :
    a * (GetExtEuclideanAlgorithm a b).2.1 + b * (GetExtEuclideanAlgorithm a b).2.2
        = (GetExtEuclideanAlgorithm a b).1
      ∧ ((GetExtEuclideanAlgorithm a b).1).natAbs = Int.gcd a b := by
  have h := extLoop_spec a b b.natAbs a b 1 0 0 1 le_rfl (by ring) (by ring)
  exact h

end rsa

namespace rsa

/-- The square-and-multiply loop returns the accumulator unchanged once the
exponent is no longer positive. -/
theorem powLoop_nonpos (base exp result modulus : Int) (h : ¬ 0 < exp) :
    powLoop base exp result modulus = result := by
  rw [powLoop, if_neg h]

/-- With modulus 1 the square-and-multiply loop returns 0 for every positive
exponent: the final bit of the exponent is always set, so the accumulator is
reduced mod 1 at least once. -/
theorem powLoop_mod_one : ∀ (m : Nat) (exp : Int), exp.toNat ≤ m → 0 < exp →
    ∀ base result : Int, powLoop base exp result 1 = 0 := by
  intro m
  induction m with
  | zero =>
    intro exp hm hpos
    omega
  | succ m ih =>
    intro exp hm hpos base result
    rw [powLoop, if_pos hpos]
    by_cases h2 : 0 < exp / 2
    · apply ih (exp / 2) (by omega) h2
    · have hone : exp = 1 := by omega
      subst hone
      norm_num
      rw [powLoop]
      norm_num
      have hl : Int.land 1 1 = 1 := by decide
      rw [hl]
      norm_num [Int.tmod_one]

/-- A zero modulus reaches the rho gcd with a zero second argument, which
panics: `GetPrimeFactors 0` is `none` for every fuel. -/
theorem GetPrimeFactors_zero (fuel : Nat) : GetPrimeFactors 0 fuel = none := by
  cases fuel with
  | zero => rfl
  | succ fuel => rfl

/-- Invariant of the inner rho loop: for positive `n`, a positive factor
dividing `n` stays positive and keeps dividing `n`. -/
theorem rhoInner_factor (n : Int) (hn : 0 < n) :
    ∀ (rem : Nat) (x xFixed factor x' factor' : Int),
    rhoInner n x xFixed factor rem = some (x', factor') →
    0 < factor ∧ factor ∣ n → 0 < factor' ∧ factor' ∣ n := by
  intro rem
  induction rem with
  | zero =>
    intro x xFixed factor x' factor' heq hfac
    simp only [rhoInner] at heq
    cases heq
    exact hfac
  | succ rem ih =>
    intro x xFixed factor x' factor' heq hfac
    simp only [rhoInner] at heq
    by_cases hle : factor ≤ 1
    · rw [if_pos hle] at heq
      rw [if_neg (by omega : ¬ n = 0)] at heq
      simp only [GetGcd_eq_gcd ((x * x + 1) % n - xFixed) n hn] at heq
      apply ih _ _ _ _ _ heq
      constructor
      · have hpos := Int.gcd_pos_of_ne_zero_right ((x * x + 1) % n - xFixed)
          (show n ≠ 0 by omega)
        exact_mod_cast hpos
      · exact Int.gcd_dvd_right
    · rw [if_neg hle] at heq
      cases heq
      exact hfac

/-- Invariant of the outer rho loop: for positive `n`, when the loop
returns a factor it is positive and divides `n`, provided the incoming
factor is. -/
theorem rhoOuter_factor (n : Int) (hn : 0 < n) :
    ∀ (fuel : Nat) (x xFixed factor : Int) (cs : Nat) (f : Int),
    rhoOuter n x xFixed factor cs fuel = some f →
    0 < factor ∧ factor ∣ n → 0 < f ∧ f ∣ n := by
  intro fuel
  induction fuel with
  | zero =>
    intro x xFixed factor cs f heq hfac
    simp [rhoOuter] at heq
  | succ fuel ih =>
    intro x xFixed factor cs f heq hfac
    simp only [rhoOuter] at heq
    by_cases h1 : factor = 1
    · rw [if_pos h1] at heq
      cases hinner : rhoInner n x xFixed factor cs with
      | none => rw [hinner] at heq; cases heq
      | some pr =>
        rw [hinner] at heq
        cases pr with
        | mk x2 factor2 =>
          apply ih _ _ _ _ _ heq
          exact rhoInner_factor n hn cs x xFixed factor x2 factor2 hinner hfac
    · rw [if_neg h1] at heq
      cases heq
      exact hfac

/-- What `GetPrimeFactors` guarantees when it returns: for positive `n`,
the first component is a positive divisor of `n` and the product of the two
components is exactly `n`.  (Nontriviality of the factors is NOT
guaranteed.) -/
theorem GetPrimeFactors_mul (n : Int) (fuel : Nat) (p q : Int) (hn : 0 < n)
    (h : GetPrimeFactors n fuel = some (p, q)) :
    p * q = n ∧ 0 < p ∧ p ∣ n := by
  unfold GetPrimeFactors at h
  cases houter : rhoOuter n 2 2 1 2 fuel with
  | none => rw [houter] at h; cases h
  | some factor =>
    simp only [houter] at h
    have hfac : 0 < factor ∧ factor ∣ n :=
      rhoOuter_factor n hn fuel 2 2 1 2 factor houter ⟨by omega, one_dvd n⟩
    rw [if_neg (by omega : ¬ factor = 0)] at h
    cases h
    refine ⟨Int.mul_ediv_cancel' hfac.2, hfac.1, hfac.2⟩

end rsa

namespace rsa

/-- C1: the round trip fails on the code.  For n = 15 = 3 * 5 (distinct
primes), e = 5 (coprime to φ = 8) and message m = 2 in [0, 15), encryption
gives cipher 2, but DecryptCipher returns 1, not 2: GetMultInverse leaves
the Bezout coefficient -3 unnormalized, so the decryption exponent is
negative and the square-and-multiply loop never runs. -/
theorem C1_roundtrip_fails :
    GetEncOrDecMsg 2 5 15 = some 2 ∧ DecryptCipher 2 15 5 10 = some 1 ∧
      some (1 : Int) ≠ some (2 : Int) := by
  refine ⟨?_, ?_, by decide⟩
  · simp +decide [GetEncOrDecMsg, powLoop, wrap64]
  · simp +decide [DecryptCipher, GetPrimeFactors, rhoOuter, rhoInner, GetGcd,
      gcdLoop, GetPhi, GetMultInverse, GetExtEuclideanAlgorithm, extLoop,
      GetEncOrDecMsg, powLoop, wrap64]

/-- C2 counterexample: n = 4 is composite, yet GetPrimeFactors returns the
trivial pair (4, 1), violating 1 < p < n and 1 < q < n. -/
theorem C2_counterexample :
    GetPrimeFactors 4 100 = some (4, 1) ∧ ¬ ((4 : Int) < 4 ∧ (1 : Int) > 1) := by
  refine ⟨?_, by decide⟩
  simp +decide [GetPrimeFactors, rhoOuter, rhoInner, GetGcd, gcdLoop]

/-- C2 (amended): whenever GetPrimeFactors returns a pair (p, q) for a
positive n, p is a positive divisor of n and p * q = n; the factors need
not be nontrivial. -/
theorem C2_factor_product (n : Int) (fuel : Nat) (p q : Int) (hn : 0 < n)
    (h : GetPrimeFactors n fuel = some (p, q)) :
    p * q = n ∧ 0 < p ∧ p ∣ n :=
  GetPrimeFactors_mul n fuel p q hn h

set_option maxRecDepth 8000 in
/-- C2 witness: at n = 15 the routine returns (3, 5) and the amended
guarantees hold. -/
theorem C2_factor_product_witness :
    GetPrimeFactors 15 10 = some (3, 5) ∧
      ((3 : Int) * 5 = 15 ∧ (0 : Int) < 3 ∧ (3 : Int) ∣ 15) := by
  have hf : GetPrimeFactors 15 10 = some (3, 5) := by
    simp +decide [GetPrimeFactors, rhoOuter, rhoInner, GetGcd, gcdLoop]
  exact ⟨hf, C2_factor_product 15 10 3 5 (by norm_num) hf⟩

set_option maxRecDepth 8000 in
/-- C3 counterexample: for the prime n = 13 the factorization routine does
not yield any FactorizationFailedError (no such error exists in the code):
it terminates normally, contradicting the claimed error return. -/
theorem C3_counterexample : GetPrimeFactors 13 100 ≠ none := by
  simp +decide [GetPrimeFactors, rhoOuter, rhoInner, GetGcd, gcdLoop]

set_option maxRecDepth 8000 in
/-- C3 (amended): for the prime n = 13 the loop terminates (the iterate
sequence cycles, the gcd becomes 13) and the routine returns the trivial
pair (13, 1) as a normal value; the code has no FactorizationFailedError
and no iteration bound. -/
theorem C3_prime_returns_trivial : GetPrimeFactors 13 100 = some (13, 1) := by
  simp +decide [GetPrimeFactors, rhoOuter, rhoInner, GetGcd, gcdLoop]

/-- C4: GetMultInverse(2, 5) succeeds with d = -2, which is not normalized
to [0, 5), and under the truncated Go remainder (2 * -2) % 5 = -4 ≠ 1,
contradicting the documented postcondition of the function. -/
theorem C4_inverse_not_normalized :
    GetMultInverse 2 5 = some (Except.ok (-2)) ∧ ¬ (0 ≤ (-2 : Int)) ∧
      Int.tmod (2 * -2) 5 ≠ 1 := by
  refine ⟨?_, by decide, by decide⟩
  simp +decide [GetMultInverse, GetExtEuclideanAlgorithm, extLoop]

/-- C5: EuclideanMod(7, 3) returns 7 & 3 = 3 (bitwise AND), not the
Euclidean remainder 1 of 7 mod 3; 3 is not even smaller than the modulus. -/
theorem C5_euclideanMod_is_bitwise_and :
    EuclideanMod 7 3 = 3 ∧ ¬ (EuclideanMod 7 3 < 3) ∧ (7 : Int) % 3 = 1 := by
  decide

/-- C6 counterexample: on (a, b) = (-4, 0) the loop terminates immediately
and returns gcd component -4, while the greatest common divisor of -4 and 0
is 4: the Bezout identity holds but the first component is not the gcd. -/
theorem C6_counterexample :
    GetExtEuclideanAlgorithm (-4) 0 = (-4, 1, 0) ∧ Int.gcd (-4) 0 = 4 ∧
      ((-4 : Int)) ≠ ((4 : Nat) : Int) := by
  refine ⟨?_, by decide, by decide⟩
  simp +decide [GetExtEuclideanAlgorithm, extLoop]

/-- C6 (amended): for every pair (a, b) the algorithm terminates and
returns (g, x, y) with a*x + b*y = g and |g| equal to the greatest common
divisor of a and b; g itself may be negative for negative inputs. -/
theorem C6_bezout_abs_gcd (a b : Int) :
    a * (GetExtEuclideanAlgorithm a b).2.1 + b * (GetExtEuclideanAlgorithm a b).2.2
        = (GetExtEuclideanAlgorithm a b).1
      ∧ ((GetExtEuclideanAlgorithm a b).1).natAbs = Int.gcd a b :=
  ext_bezout_gcd a b

set_option maxRecDepth 8000 in
/-- C7 counterexample: for n = 15, e = 2 the lower layer GetMultInverse
fails (gcd(2, 8) = 2), yet DecryptCipher returns the normal value 1 — no
error reaches the caller. -/
theorem C7_counterexample :
    GetMultInverse 2 (GetPhi 3 5) = some (Except.error ()) ∧
      DecryptCipher 1 15 2 10 = some 1 := by
  constructor
  · simp +decide [GetMultInverse, GetExtEuclideanAlgorithm, extLoop, GetPhi]
  · simp +decide [DecryptCipher, GetPrimeFactors, rhoOuter, rhoInner, GetGcd,
      gcdLoop, GetPhi, GetMultInverse, GetExtEuclideanAlgorithm, extLoop,
      GetEncOrDecMsg, powLoop, wrap64]

/-- C7 (amended): DecryptCipher cannot propagate a lower-layer error — its
return type carries none; when GetMultInverse fails it logs, keeps the zero
value d = 0 and returns GetEncOrDecMsg(cipher, 0, n) as if nothing
happened. -/
theorem C7_error_swallowed (cipher n e : Int) (fuel : Nat) (p q : Int)
    (hf : GetPrimeFactors n fuel = some (p, q))
    (herr : GetMultInverse e (GetPhi p q) = some (Except.error ())) :
    DecryptCipher cipher n e fuel = GetEncOrDecMsg cipher 0 n := by
  unfold DecryptCipher
  simp only [hf, herr]

set_option maxRecDepth 8000 in
/-- C7 witness: the amended statement applied at cipher = 1, n = 15,
e = 2. -/
theorem C7_error_swallowed_witness :
    GetPrimeFactors 15 10 = some (3, 5) ∧
      DecryptCipher 1 15 2 10 = GetEncOrDecMsg 1 0 15 := by
  have hf : GetPrimeFactors 15 10 = some (3, 5) := by
    simp +decide [GetPrimeFactors, rhoOuter, rhoInner, GetGcd, gcdLoop]
  have herr : GetMultInverse 2 (GetPhi 3 5) = some (Except.error ()) := by
    simp +decide [GetMultInverse, GetExtEuclideanAlgorithm, extLoop, GetPhi]
  exact ⟨hf, C7_error_swallowed 1 15 2 10 3 5 hf herr⟩

end rsa

namespace rsa

/-- C8 counterexample: GetEncOrDecMsg(5, 0, 1) = 1, not 0: with a zero
exponent the loop never runs and the accumulator 1 is returned even for
modulus 1. -/
theorem C8_counterexample :
    GetEncOrDecMsg 5 0 1 = some 1 ∧ some (1 : Int) ≠ some (0 : Int) := by
  refine ⟨?_, by decide⟩
  simp +decide [GetEncOrDecMsg, powLoop]

/-- C8 (amended): GetEncOrDecMsg(base, 0, modulus) = 1 for every modulus
greater than 1, and GetEncOrDecMsg(base, exp, 1) = 0 for every POSITIVE
exponent (for exp ≤ 0 the loop is skipped and 1 is returned instead). -/
theorem C8_modpow_units :
    (∀ base modulus : Int, 1 < modulus → GetEncOrDecMsg base 0 modulus = some 1) ∧
      (∀ base exp : Int, 0 < exp → GetEncOrDecMsg base exp 1 = some 0) := by
  constructor
  · intro base modulus hm
    unfold GetEncOrDecMsg
    rw [if_neg (by omega : ¬ modulus = 0)]
    rw [powLoop_nonpos _ _ _ _ (by omega)]
  · intro base exp he
    unfold GetEncOrDecMsg
    rw [if_neg (by omega : ¬ (1 : Int) = 0)]
    rw [powLoop_mod_one exp.toNat exp le_rfl he]

/-- C8 witness: both parts of the amended statement at concrete inputs. -/
theorem C8_modpow_units_witness :
    GetEncOrDecMsg 7 0 5 = some 1 ∧ GetEncOrDecMsg 7 3 1 = some 0 :=
  ⟨C8_modpow_units.1 7 5 (by norm_num), C8_modpow_units.2 7 3 (by norm_num)⟩

/-- C9 counterexample: GetGcd(5, 0) panics (division by zero in GetMod)
instead of returning 5. -/
theorem C9_counterexample :
    GetGcd 5 0 = none ∧ (none : Option Int) ≠ some 5 := by
  refine ⟨?_, by decide⟩
  simp [GetGcd, gcdLoop]

/-- C9 (amended): for positive arguments GetGcd is symmetric (both orders
return the mathematical gcd); but GetGcd(a, 0) panics with a division by
zero rather than returning a. -/
theorem C9_gcd_comm (a b : Int) (ha : 0 < a) (hb : 0 < b) :
    GetGcd a b = GetGcd b a := by
  rw [GetGcd_eq_gcd a b hb, GetGcd_eq_gcd b a ha, Int.gcd_comm]

/-- C9 witness: the amended symmetry applied at (6, 4). -/
theorem C9_gcd_comm_witness :
    (0 : Int) < 6 ∧ GetGcd 6 4 = GetGcd 4 6 :=
  ⟨by norm_num, C9_gcd_comm 6 4 (by norm_num) (by norm_num)⟩

/-- C10: when factorization terminates with (p, q) whose totient
(p-1)*(q-1) is not coprime to e, GetMultInverse fails, DecryptCipher
swallows the error, continues with d = 0, and returns 1 (the value of the
modular-exponentiation loop with exponent 0). -/
theorem C10_swallow_returns_one (cipher n e : Int) (fuel : Nat) (p q : Int)
    (hf : GetPrimeFactors n fuel = some (p, q))
    (hg : Int.gcd e ((p - 1) * (q - 1)) ≠ 1) :
    DecryptCipher cipher n e fuel = some 1 := by
  have hn0 : n ≠ 0 := by
    intro h0
    subst h0
    rw [GetPrimeFactors_zero] at hf
    cases hf
  have hb := ext_bezout_gcd e (GetPhi p q)
  have hg1 : (GetExtEuclideanAlgorithm e (GetPhi p q)).1 ≠ 1 := by
    intro h1
    apply hg
    have h2 := hb.2
    rw [h1] at h2
    simpa [GetPhi] using h2.symm
  have herr : GetMultInverse e (GetPhi p q) = some (Except.error ()) := by
    unfold GetMultInverse
    rw [if_pos hg1]
  unfold DecryptCipher
  simp only [hf, herr]
  unfold GetEncOrDecMsg
  rw [if_neg hn0]
  rw [powLoop_nonpos _ _ _ _ (by omega)]

set_option maxRecDepth 8000 in
/-- C10 witness: at n = 15, e = 2 (gcd(2, 8) = 2 ≠ 1) decryption of any
cipher, here 7, returns 1. -/
theorem C10_swallow_returns_one_witness :
    GetPrimeFactors 15 10 = some (3, 5) ∧
      Int.gcd 2 ((3 - 1) * (5 - 1)) ≠ 1 ∧
      DecryptCipher 7 15 2 10 = some 1 := by
  have hf : GetPrimeFactors 15 10 = some (3, 5) := by
    simp +decide [GetPrimeFactors, rhoOuter, rhoInner, GetGcd, gcdLoop]
  exact ⟨hf, by decide, C10_swallow_returns_one 7 15 2 10 3 5 hf (by decide)⟩

end rsa
